import Mathlib

/-!
Shallow embedding of `mpi_vector_add2.c` and `vector_add2.c`: a distributed
block-vector arithmetic program (generate, scatter, scale, dot product,
reduce) over a fixed group of `P` workers, together with its serial variant.

Doubles are modelled by exact rationals (`ℚ`); C `int` arithmetic uses
`Int.tmod` / `Int.tdiv`, the truncating (C99) division and remainder.
A vector is a `List ℚ`; worker `i`'s block of a global vector of order `n`
is the contiguous slice starting at `i * (n / P)` of length `n / P`.
-/

namespace VectorAdd

/-- Outcome of one collective error-gate call (`Check_for_error`): whether the
group aborted, the lines printed to stderr tagged by the printing rank, and
the exit code passed to `exit`, if any. -/
structure GateResult where
  aborted : Bool
  errLines : List (Nat × String)
  exitCode : Option Int
deriving DecidableEq

/-- `MPI_Allreduce` with `MPI_MIN` over one `int` per worker: the minimum of
the contributed values.  The group is nonempty in every run; the `[]` case is
dead and returns 1. -/
def allreduceMin : List Int → Int
  | [] => 1
  | x :: xs => xs.foldl min x

/-- `Check_for_error` (mpi_vector_add2.c:118-137): allreduce the per-worker
`local_ok` flags with MIN; if the combined value is 0, rank 0 prints
`Proc 0 > In <fname>, <message>` to stderr and every worker calls
`MPI_Finalize` and `exit(-1)`; otherwise every worker returns normally. -/
def Check_for_error (flags : List Int) (fname message : String) : GateResult :=
  let ok := allreduceMin flags
  if ok = 0 then
    { aborted := true
      errLines := [(0, "Proc 0 > In " ++ fname ++ ", " ++ message)]
      exitCode := some (-1) }
  else
    { aborted := false, errLines := [], exitCode := none }

/-- The `local_ok` flag computed by every rank in `Read_n`
(mpi_vector_add2.c:167) from the broadcast order `n`:
0 when `n < 0` or `n % comm_sz != 0`, else 1. -/
def Read_n_flag (n : Int) (P : Nat) : Int :=
  if n < 0 ∨ Int.tmod n (P : Int) ≠ 0 then 0 else 1

/-- The collective gate call made by `Read_n` (mpi_vector_add2.c:168-169):
all `P` ranks contribute the same flag, computed from the broadcast `n`. -/
def Read_n_gate (n : Int) (P : Nat) : GateResult :=
  Check_for_error (List.replicate P (Read_n_flag n P)) "Read_n"
    "n should be >= 100,000 and evenly divisible by comm_sz"

/-- The local share each of the `P` ranks stores after the gate passes
(mpi_vector_add2.c:170): `*local_n_p = *n_p / comm_sz`, in rank order. -/
def Read_n_localShares (n : Int) (P : Nat) : List Int :=
  List.replicate P (Int.tdiv n (P : Int))

/-- The `local_ok` flag computed by every rank in `Read_RandMax`
(mpi_vector_add2.c:197): 0 when `randmax < 0`, else 1. -/
def Read_RandMax_flag (randmax : Int) : Int :=
  if randmax < 0 then 0 else 1

/-- The collective gate call made by `Read_RandMax`
(mpi_vector_add2.c:198-199). -/
def Read_RandMax_gate (randmax : Int) (P : Nat) : GateResult :=
  Check_for_error (List.replicate P (Read_RandMax_flag randmax)) "Read_RandMax"
    "randmax should be >= 100,000"

/-- `MPI_Bcast` of one `int` from rank 0: every one of the `P` workers
receives the root's value unchanged. -/
def mpiBcast (v : Int) (P : Nat) : List Int :=
  List.replicate P v

/-- `Read_Scalar` (mpi_vector_add2.c:353-366): the value read at rank 0 is
broadcast and returned as-is; the list records the flags of the gate calls
the function makes, and `Read_Scalar` makes none. -/
def Read_Scalar_run (scalar : Int) : Int × List Int :=
  (scalar, [])

/-- The input-dependent abort condition of `main` (mpi_vector_add2.c:52-100):
the run aborts when the `Read_n` gate or the `Read_RandMax` gate fires, or
some `malloc` fails (`allocOk = false`, covering `Allocate_vectors`,
`Generate_vector` and `PrintTopDown_vector`).  No gate call in `main`
inspects the scalar. -/
def mainAborts (n randmax scalar : Int) (allocOk : Bool) (P : Nat) : Bool :=
  (Read_n_gate n P).aborted || (Read_RandMax_gate randmax P).aborted || !allocOk

/-- The global vector materialized at rank 0 by `Generate_vector`
(mpi_vector_add2.c:273-274): `a[i] = rand() % randmax`, with the C stream
`rand()` modelled by `r : Nat → Int` (its values are nonnegative), and the
`int` result stored into a `double` cell. -/
def Generate_vector_global (r : Nat → Int) (n : Nat) (randmax : Int) : List ℚ :=
  (List.range n).map (fun i => ((Int.tmod (r i) randmax : Int) : ℚ))

/-- The block `MPI_Scatter` delivers to worker `i`: `bs` consecutive elements
of the global vector starting at offset `i * bs` (block distribution,
`bs = n / P`). -/
def localBlock (bs i : Nat) (a : List ℚ) : List ℚ :=
  (a.drop (i * bs)).take bs

/-- The full `MPI_Scatter` decomposition: the blocks handed to workers
`0, …, P-1`, in rank order. -/
def scatterBlocks (bs P : Nat) (a : List ℚ) : List (List ℚ) :=
  (List.range P).map (fun i => localBlock bs i a)

/-- The vector `MPI_Gather` reassembles at rank 0 inside
`PrintTopDown_vector` (mpi_vector_add2.c:322-323): the workers' blocks
concatenated in rank order, block `i` occupying global positions
`[i * bs, (i+1) * bs)`. -/
def gatherBlocks (blocks : List (List ℚ)) : List ℚ :=
  blocks.flatten

/-- `Parallel_vector_scalar` (mpi_vector_add2.c:377-387): every element of
the local block is replaced in place by `local_arr[i] * scalar`. -/
def Parallel_vector_scalar (scalar : Int) (local_arr : List ℚ) : List ℚ :=
  local_arr.map (fun v => v * (scalar : ℚ))

/-- The local accumulation loop of `Parallel_vector_dot`
(mpi_vector_add2.c:406-410): `local_dot = 0.0`, then
`local_dot += local_x[i] * local_y[i]` for `i = 0, …, local_n - 1`. -/
def local_dot (local_x local_y : List ℚ) : ℚ :=
  (List.zipWith (fun a b => a * b) local_x local_y).foldl (fun acc p => acc + p) 0

/-- `MPI_Reduce` with `MPI_SUM` to root: the root receives the sum of all
workers' contributions; every other rank's result buffer is untouched
(no meaningful value), modelled as `none`. -/
def mpiReduceSum (partials : List ℚ) (root rank : Nat) : Option ℚ :=
  if rank = root then some partials.sum else none

/-- The per-worker partial dot products over the block distribution of the
global vectors `x` and `y`, in rank order (`bs = n / P`). -/
def dotPartials (bs P : Nat) (x y : List ℚ) : List ℚ :=
  (List.range P).map (fun i => local_dot (localBlock bs i x) (localBlock bs i y))

/-- The collective effect of `Parallel_vector_dot` (mpi_vector_add2.c:398-415)
on global vectors of order `n` over `P` workers, seen from `rank`: each worker
computes its local partial, and `MPI_Reduce` sums them to rank 0. -/
def Parallel_vector_dot (x y : List ℚ) (n P rank : Nat) : Option ℚ :=
  mpiReduceSum (dotPartials (n / P) P x y) 0 rank

/-- The sequence of global indices `PrintTopDown_vector` reads from the
gathered buffer `b` (mpi_vector_add2.c:326-332): `b[0] … b[8]`, then `b[9]`,
then `b[n-10] … b[n-2]` (the loop `for (i = n-10; i < n-1; i++)` runs exactly
9 iterations), then `b[n-1]`. -/
def PrintTopDown_accesses (n : Int) : List Int :=
  ((List.range 9).map (fun i => Int.ofNat i)) ++ [9]
    ++ ((List.range 9).map (fun i => n - 10 + Int.ofNat i)) ++ [n - 1]

/-- The validation in the serial variant's `Read_n` (vector_add2.c:70-73):
the run is rejected exactly when `n <= 0`. -/
def serial_Read_n_ok (n : Int) : Bool :=
  !(n ≤ 0)

/-- One stage of a `main` pipeline; vectors are numbered (0 for x, 1 for z/y).
`generatedMsg` is the `Vector %s generated ...` line the serial
`Generate_vector` prints. -/
inductive Stage
  | readN
  | readRandMax
  | allocate
  | generateVec (v : Nat)
  | generatedMsg (v : Nat)
  | printSummary (v : Nat)
  | readScalar
  | scaleVec (v : Nat)
  | dotProduct
  | reportDot
  | vectorSum
  | reportTime
deriving DecidableEq

/-- The pipeline of the serial `main` (vector_add2.c:30-58): read n, read
randmax, allocate, generate x (printing its confirmation), generate y,
print both summaries, compute the elementwise sum z = x + y, report time. -/
def serialPipeline : List Stage :=
  [Stage.readN, Stage.readRandMax, Stage.allocate,
   Stage.generateVec 0, Stage.generatedMsg 0,
   Stage.generateVec 1, Stage.generatedMsg 1,
   Stage.printSummary 0, Stage.printSummary 1,
   Stage.vectorSum, Stage.reportTime]

/-- The pipeline of the distributed `main` (mpi_vector_add2.c:52-100):
read n, read randmax, allocate, generate and print x, generate and print y,
read the scalar, scale and print both, dot product, report it, report time. -/
def mpiPipeline : List Stage :=
  [Stage.readN, Stage.readRandMax, Stage.allocate,
   Stage.generateVec 0, Stage.printSummary 0,
   Stage.generateVec 1, Stage.printSummary 1,
   Stage.readScalar,
   Stage.scaleVec 0, Stage.printSummary 0,
   Stage.scaleVec 1, Stage.printSummary 1,
   Stage.dotProduct, Stage.reportDot, Stage.reportTime]

/-! ## Helper lemmas -/

theorem foldl_add_eq (l : List ℚ) (c : ℚ) :
    l.foldl (fun acc p => acc + p) c = c + l.sum := by
  induction l generalizing c with
  | nil => simp
  | cons x xs ih => simp [ih, add_assoc]

theorem local_dot_eq_sum (x y : List ℚ) :
    local_dot x y = (List.zipWith (fun a b => a * b) x y).sum := by
  simp [local_dot, foldl_add_eq]

theorem foldl_min_replicate (k : Nat) (v : Int) :
    (List.replicate k v).foldl min v = v := by
  induction k with
  | zero => rfl
  | succ k ih => simpa [List.replicate_succ] using ih

theorem allreduceMin_replicate (P : Nat) (v : Int) (hP : 0 < P) :
    allreduceMin (List.replicate P v) = v := by
  cases P with
  | zero => exact absurd hP (lt_irrefl 0)
  | succ k => simp [List.replicate_succ, allreduceMin, foldl_min_replicate]

theorem min01 (a b : Int) (ha : a = 0 ∨ a = 1) (hb : b = 0 ∨ b = 1) :
    (min a b = 0 ∨ min a b = 1) ∧ (min a b = 0 ↔ a = 0 ∨ b = 0) := by
  rcases ha with h | h <;> rcases hb with h2 | h2 <;> subst h <;> subst h2 <;> decide

theorem foldl_min_bool (xs : List Int) (acc : Int) (hacc : acc = 0 ∨ acc = 1)
    (hxs : ∀ f ∈ xs, f = 0 ∨ f = 1) :
    (xs.foldl min acc = 0 ∨ xs.foldl min acc = 1)
    ∧ (xs.foldl min acc = 0 ↔ (acc = 0 ∨ 0 ∈ xs)) := by
  induction xs generalizing acc with
  | nil =>
      refine ⟨hacc, ?_⟩
      simp
  | cons x xs ih =>
      have hx : x = 0 ∨ x = 1 := hxs x (List.mem_cons_self x xs)
      have hxs' : ∀ f ∈ xs, f = 0 ∨ f = 1 := fun f hf => hxs f (List.mem_cons_of_mem x hf)
      have hmin := min01 acc x hacc hx
      have := ih (min acc x) hmin.1 hxs'
      refine ⟨this.1, ?_⟩
      rw [List.foldl_cons, this.2, hmin.2, List.mem_cons]
      constructor
      · rintro ((h | h) | h)
        · exact Or.inl h
        · exact Or.inr (Or.inl h.symm)
        · exact Or.inr (Or.inr h)
      · rintro (h | h | h)
        · exact Or.inl (Or.inl h)
        · exact Or.inl (Or.inr h.symm)
        · exact Or.inr h

theorem allreduceMin_bool (flags : List Int) (hne : flags ≠ [])
    (hb : ∀ f ∈ flags, f = 0 ∨ f = 1) :
    (allreduceMin flags = 0 ↔ 0 ∈ flags)
    ∧ allreduceMin flags = (if flags.all (fun f => f == 1) then 1 else 0) := by
  cases flags with
  | nil => exact absurd rfl hne
  | cons x xs =>
      have hx : x = 0 ∨ x = 1 := hb x (List.mem_cons_self x xs)
      have hxs : ∀ f ∈ xs, f = 0 ∨ f = 1 := fun f hf => hb f (List.mem_cons_of_mem x hf)
      have hfold := foldl_min_bool xs x hx hxs
      have hmem : allreduceMin (x :: xs) = 0 ↔ 0 ∈ x :: xs := by
        rw [show allreduceMin (x :: xs) = xs.foldl min x from rfl, hfold.2]
        simp [List.mem_cons, eq_comm]
      refine ⟨hmem, ?_⟩
      by_cases hall : (x :: xs).all (fun f => f == 1)
      · have hno : ¬ (0 : Int) ∈ x :: xs := by
          intro h0
          have := List.all_eq_true.mp hall 0 h0
          simp at this
        have hnz : allreduceMin (x :: xs) ≠ 0 := fun h => hno (hmem.mp h)
        have h01 : allreduceMin (x :: xs) = 0 ∨ allreduceMin (x :: xs) = 1 := hfold.1
        simp [hall]
        rcases h01 with h | h
        · exact absurd h hnz
        · exact h
      · have hex : ∃ f ∈ x :: xs, f ≠ 1 := by
          by_contra hcon
          push_neg at hcon
          exact hall (List.all_eq_true.mpr (fun f hf => by simp [hcon f hf]))
        obtain ⟨f, hf, hf1⟩ := hex
        have hf0 : f = 0 := by
          rcases hb f hf with h | h
          · exact h
          · exact absurd h hf1
        have h0 : (0 : Int) ∈ x :: xs := hf0 ▸ hf
        simp [hall]
        exact hmem.mpr h0

theorem localBlock_zero (bs : Nat) (a : List ℚ) : localBlock bs 0 a = a.take bs := by
  simp [localBlock]

theorem localBlock_succ (bs i : Nat) (a : List ℚ) :
    localBlock bs (i + 1) a = localBlock bs i (a.drop bs) := by
  unfold localBlock
  rw [List.drop_drop]
  congr 2
  ring

theorem scatterBlocks_succ (bs P : Nat) (a : List ℚ) :
    scatterBlocks bs (P + 1) a = a.take bs :: scatterBlocks bs P (a.drop bs) := by
  unfold scatterBlocks
  rw [List.range_succ_eq_map, List.map_cons, List.map_map, localBlock_zero]
  refine congrArg _ ?_
  exact List.map_congr_left (fun i _ => localBlock_succ bs i a)

theorem dotPartials_succ (bs P : Nat) (x y : List ℚ) :
    dotPartials bs (P + 1) x y
      = local_dot (x.take bs) (y.take bs) :: dotPartials bs P (x.drop bs) (y.drop bs) := by
  unfold dotPartials
  rw [List.range_succ_eq_map, List.map_cons, List.map_map, localBlock_zero, localBlock_zero]
  refine congrArg _ ?_
  refine List.map_congr_left (fun i _ => ?_)
  simp [Function.comp, localBlock_succ]

theorem scatter_gather_eq (bs P : Nat) (a : List ℚ) (ha : a.length = P * bs) :
    gatherBlocks (scatterBlocks bs P a) = a := by
  induction P generalizing a with
  | zero =>
      have h0 : a = [] := List.length_eq_zero.mp (by simpa using ha)
      simp [h0, scatterBlocks, gatherBlocks]
  | succ k ih =>
      have hd : (a.drop bs).length = k * bs := by
        simp [ha, Nat.succ_mul]
      rw [scatterBlocks_succ]
      have htl := ih (a.drop bs) hd
      simp only [gatherBlocks, List.flatten_cons] at htl ⊢
      rw [htl, List.take_append_drop]

theorem local_dot_append_split (bs : Nat) (x y : List ℚ) (h : x.length = y.length) :
    local_dot x y = local_dot (x.take bs) (y.take bs) + local_dot (x.drop bs) (y.drop bs) := by
  rw [local_dot_eq_sum, local_dot_eq_sum, local_dot_eq_sum]
  have hlen : (x.take bs).length = (y.take bs).length := by simp [h]
  calc (List.zipWith (fun a b => a * b) x y).sum
      = (List.zipWith (fun a b => a * b) (x.take bs ++ x.drop bs)
          (y.take bs ++ y.drop bs)).sum := by
        rw [List.take_append_drop, List.take_append_drop]
    _ = _ := by
        rw [List.zipWith_append _ _ _ _ _ hlen, List.sum_append]

theorem dotPartials_sum (bs P : Nat) (x y : List ℚ)
    (hx : x.length = P * bs) (hy : y.length = P * bs) :
    (dotPartials bs P x y).sum = local_dot x y := by
  induction P generalizing x y with
  | zero =>
      have hx0 : x = [] := List.length_eq_zero.mp (by simpa using hx)
      simp [dotPartials, hx0, local_dot]
  | succ k ih =>
      have hdx : (x.drop bs).length = k * bs := by simp [hx, Nat.succ_mul]
      have hdy : (y.drop bs).length = k * bs := by simp [hy, Nat.succ_mul]
      rw [dotPartials_succ, List.sum_cons, ih _ _ hdx hdy,
          ← local_dot_append_split bs x y (by rw [hx, hy])]

theorem zipWith_mul_eq_map_range (a b : List ℚ) (h : a.length = b.length) :
    List.zipWith (fun u v => u * v) a b
      = (List.range a.length).map (fun i => a.getD i 0 * b.getD i 0) := by
  induction a generalizing b with
  | nil => simp
  | cons x xs ih =>
      cases b with
      | nil => simp at h
      | cons y ys =>
          have h' : xs.length = ys.length := by simpa using h
          rw [List.zipWith_cons_cons, List.length_cons, List.range_succ_eq_map,
              List.map_cons, List.map_map]
          refine congrArg₂ _ (by simp) ?_
          rw [ih ys h']
          refine List.map_congr_left (fun i _ => ?_)
          simp [Function.comp]

/-! ## Claim theorems -/

/-- C1: for global vectors `x`, `y` of order `n` with `n % P == 0`, the dot
product of the distributed pipeline (each worker sums `a[i]*b[i]` over its
contiguous block, the per-worker partials summed by the reduction to rank 0)
equals the dot product computed by a single worker (`P = 1`) over the whole
vectors, under exact arithmetic. -/
theorem dot_distributes (n P : Nat) (x y : List ℚ) (hP : 0 < P)
    (hx : x.length = n) (hy : y.length = n) (hn : n % P = 0) :
    Parallel_vector_dot x y n P 0 = Parallel_vector_dot x y n 1 0 := by
  have hPn : P * (n / P) = n := Nat.mul_div_cancel' (Nat.dvd_of_mod_eq_zero hn)
  unfold Parallel_vector_dot mpiReduceSum
  simp only [if_pos rfl, Option.some.injEq]
  rw [dotPartials_sum (n / P) P x y (by rw [hx]; exact hPn.symm)
        (by rw [hy]; exact hPn.symm),
      dotPartials_sum (n / 1) 1 x y (by simp [hx]) (by simp [hy])]

/-- C1 witness: the distributed dot product over 2 workers on order-4 vectors
agrees with the single-worker dot product. -/
theorem dot_distributes_witness :
    0 < 2 ∧ ([1, 2, 3, 4] : List ℚ).length = 4 ∧ ([5, 6, 7, 8] : List ℚ).length = 4
    ∧ 4 % 2 = 0
    ∧ Parallel_vector_dot [1, 2, 3, 4] [5, 6, 7, 8] 4 2 0
        = Parallel_vector_dot [1, 2, 3, 4] [5, 6, 7, 8] 4 1 0 :=
  ⟨by decide, rfl, rfl, by decide,
   dot_distributes 4 2 [1, 2, 3, 4] [5, 6, 7, 8] (by decide) rfl rfl (by decide)⟩

/-- C2: for every `n` and worker count `P` with `n % P == 0`, scattering the
generated global vector into `P` contiguous rank-ordered blocks of size
`n / P` and gathering them back in rank order reconstructs the original
generated vector exactly. -/
theorem generate_scatter_gather_roundtrip (r : Nat → Int) (n P : Nat) (randmax : Int)
    (hP : 0 < P) (hn : n % P = 0) :
    gatherBlocks (scatterBlocks (n / P) P (Generate_vector_global r n randmax))
      = Generate_vector_global r n randmax := by
  apply scatter_gather_eq
  have hlen : (Generate_vector_global r n randmax).length = n := by
    simp [Generate_vector_global]
  rw [hlen]
  exact (Nat.mul_div_cancel' (Nat.dvd_of_mod_eq_zero hn)).symm

/-- C2 witness: the order-4 generated vector round-trips through a 2-worker
scatter and gather. -/
theorem generate_scatter_gather_roundtrip_witness :
    0 < 2 ∧ 4 % 2 = 0
    ∧ gatherBlocks (scatterBlocks (4 / 2) 2 (Generate_vector_global (fun i => (i : Int)) 4 10))
        = Generate_vector_global (fun i => (i : Int)) 4 10 :=
  ⟨by decide, by decide,
   generate_scatter_gather_roundtrip (fun i => (i : Int)) 4 2 10 (by decide) (by decide)⟩

/-- C3: for equal-length local blocks `a` and `b`, the local dot partial is
the sum of the elementwise products `a[i]*b[i]` in increasing index order,
and the reduction delivers the sum of all workers' partials only to rank 0;
every other rank receives no meaningful value. -/
theorem local_dot_and_reduce (a b partials : List ℚ) (rank : Nat)
    (h : a.length = b.length) :
    local_dot a b = ((List.range a.length).map (fun i => a.getD i 0 * b.getD i 0)).sum
    ∧ mpiReduceSum partials 0 0 = some partials.sum
    ∧ (rank ≠ 0 → mpiReduceSum partials 0 rank = none) := by
  refine ⟨?_, by simp [mpiReduceSum], fun hr => by simp [mpiReduceSum, hr]⟩
  rw [local_dot_eq_sum, zipWith_mul_eq_map_range a b h]

/-- C3 witness: instantiated on blocks `[1, 2]`, `[3, 4]`, the partials
`[5, 6]` and the non-root rank 1. -/
theorem local_dot_and_reduce_witness :
    ([1, 2] : List ℚ).length = ([3, 4] : List ℚ).length
    ∧ (local_dot [1, 2] [3, 4]
        = ((List.range ([1, 2] : List ℚ).length).map
            (fun i => ([1, 2] : List ℚ).getD i 0 * ([3, 4] : List ℚ).getD i 0)).sum
      ∧ mpiReduceSum [5, 6] 0 0 = some ([5, 6] : List ℚ).sum
      ∧ (1 ≠ 0 → mpiReduceSum [5, 6] 0 1 = none)) :=
  ⟨rfl, local_dot_and_reduce [1, 2] [3, 4] [5, 6] 1 rfl⟩

/-- C4: the scale operation multiplies every element in place by the integer
factor: the block length is unchanged and element `i` becomes the factor
times the old element `i`, for every in-range `i`; the operation is total
(no failure mode). -/
theorem scale_elementwise (scalar : Int) (arr : List ℚ) (i : Nat)
    (hi : i < arr.length) :
    (Parallel_vector_scalar scalar arr).length = arr.length
    ∧ (Parallel_vector_scalar scalar arr).getD i 0 = (scalar : ℚ) * arr.getD i 0 := by
  refine ⟨by simp [Parallel_vector_scalar], ?_⟩
  have hlen : i < (Parallel_vector_scalar scalar arr).length := by
    simpa [Parallel_vector_scalar] using hi
  rw [List.getD_eq_getElem _ _ hlen, List.getD_eq_getElem _ _ hi]
  simp [Parallel_vector_scalar, mul_comm]

/-- C4 witness: scaling `[2, 3]` by 5 at index 1. -/
theorem scale_elementwise_witness :
    1 < ([2, 3] : List ℚ).length
    ∧ ((Parallel_vector_scalar 5 [2, 3]).length = ([2, 3] : List ℚ).length
      ∧ (Parallel_vector_scalar 5 [2, 3]).getD 1 0
          = ((5 : Int) : ℚ) * ([2, 3] : List ℚ).getD 1 0) :=
  ⟨by decide, scale_elementwise 5 [2, 3] 1 (by decide)⟩

/-- C5: the order validation aborts the group through the gate exactly when
`n < 0` or `n % P != 0`; when it does not abort, every worker's local block
size is `n / P` (C truncating division). -/
theorem Read_n_validation (n : Int) (P : Nat) (hP : 0 < P) :
    ((Read_n_gate n P).aborted = true ↔ (n < 0 ∨ Int.tmod n (P : Int) ≠ 0))
    ∧ ((Read_n_gate n P).aborted = false →
        ∀ rank, rank < P →
          (Read_n_localShares n P).getD rank 0 = Int.tdiv n (P : Int)) := by
  constructor
  · unfold Read_n_gate Check_for_error
    rw [allreduceMin_replicate P (Read_n_flag n P) hP]
    unfold Read_n_flag
    by_cases hc : n < 0 ∨ Int.tmod n (P : Int) ≠ 0
    · simp [hc]
    · simp [hc]
  · intro _ rank hrank
    have hlen : rank < (Read_n_localShares n P).length := by
      simpa [Read_n_localShares] using hrank
    rw [List.getD_eq_getElem _ _ hlen]
    simp [Read_n_localShares]

/-- C5 witness: with `P = 2`, `n = 7` is rejected (not divisible), `n = -2`
is rejected (negative), and `n = 6` passes with every local share `3`. -/
theorem Read_n_validation_witness :
    (0 < 2
      ∧ ((Read_n_gate 7 2).aborted = true ↔ ((7 : Int) < 0 ∨ Int.tmod 7 (2 : Int) ≠ 0)))
    ∧ (0 < 2
      ∧ ((Read_n_gate 6 2).aborted = false →
          ∀ rank, rank < 2 →
            (Read_n_localShares 6 2).getD rank 0 = Int.tdiv 6 (2 : Int))) :=
  ⟨⟨by decide, (Read_n_validation 7 2 (by decide)).1⟩,
   ⟨by decide, (Read_n_validation 6 2 (by decide)).2⟩⟩

/-- C6: the gate combines the group's health flags by minimum, which on 0/1
flags is logical AND; when the combined flag is unhealthy, exactly rank 0
prints the one line `Proc 0 > In <context>, <message>` to stderr and every
worker exits with code -1; when all flags are healthy, the gate returns
normally with no output. -/
theorem errorGate_semantics (flags : List Int) (fname msg : String)
    (hne : flags ≠ []) (hb : ∀ f ∈ flags, f = 0 ∨ f = 1) :
    allreduceMin flags = (if flags.all (fun f => f == 1) then 1 else 0)
    ∧ ((Check_for_error flags fname msg).aborted = true ↔ 0 ∈ flags)
    ∧ ((Check_for_error flags fname msg).aborted = true →
        (Check_for_error flags fname msg).errLines
            = [(0, "Proc 0 > In " ++ fname ++ ", " ++ msg)]
        ∧ (Check_for_error flags fname msg).exitCode = some (-1))
    ∧ ((Check_for_error flags fname msg).aborted = false →
        (Check_for_error flags fname msg).errLines = []
        ∧ (Check_for_error flags fname msg).exitCode = none) := by
  have hbase := allreduceMin_bool flags hne hb
  refine ⟨hbase.2, ?_, ?_, ?_⟩
  · unfold Check_for_error
    by_cases h0 : allreduceMin flags = 0
    · simpa [h0] using hbase.1.mp h0
    · simp [h0]
      intro hmem
      exact h0 (hbase.1.mpr hmem)
  · unfold Check_for_error
    by_cases h0 : allreduceMin flags = 0
    · simp [h0]
    · simp [h0]
  · unfold Check_for_error
    by_cases h0 : allreduceMin flags = 0
    · simp [h0]
    · simp [h0]

/-- C6 witness: the gate on flags `[1, 0, 1]` (one unhealthy worker) and on
flags `[1, 1]` (all healthy). -/
theorem errorGate_semantics_witness :
    (([1, 0, 1] : List Int) ≠ []
      ∧ (∀ f ∈ ([1, 0, 1] : List Int), f = 0 ∨ f = 1)
      ∧ allreduceMin [1, 0, 1]
          = (if ([1, 0, 1] : List Int).all (fun f => f == 1) then 1 else 0)
      ∧ ((Check_for_error [1, 0, 1] "Read_n" "bad").aborted = true ↔ 0 ∈ ([1, 0, 1] : List Int)))
    ∧ (([1, 1] : List Int) ≠ []
      ∧ (∀ f ∈ ([1, 1] : List Int), f = 0 ∨ f = 1)
      ∧ ((Check_for_error [1, 1] "Read_n" "bad").aborted = false →
          (Check_for_error [1, 1] "Read_n" "bad").errLines = []
          ∧ (Check_for_error [1, 1] "Read_n" "bad").exitCode = none)) :=
  ⟨⟨by decide, by decide,
    (errorGate_semantics [1, 0, 1] "Read_n" "bad" (by decide) (by decide)).1,
    (errorGate_semantics [1, 0, 1] "Read_n" "bad" (by decide) (by decide)).2.1⟩,
   ⟨by decide, by decide,
    (errorGate_semantics [1, 1] "Read_n" "bad" (by decide) (by decide)).2.2.2⟩⟩

/-- C7 counterexample: `randmax = 0` passes the random-bound validation (the
gate does not abort), yet the generated element is `rand() % 0` — in C a
division by zero; even taking the mathematical truncated remainder, the
element `5 % 0 = 5` does not lie in the empty range `[0, 0)`. -/
theorem randmax_zero_counterexample :
    (Read_RandMax_gate 0 1).aborted = false
    ∧ Generate_vector_global (fun _ => 5) 1 0 = [(5 : ℚ)]
    ∧ ¬ ((5 : ℚ) < 0) := by
  refine ⟨by decide, ?_, by norm_num⟩
  simp [Generate_vector_global, List.range_succ]

/-- C7 amended: the random-bound validation rejects exactly negative bounds;
for every accepted positive `randmax`, generation is well defined (the
modulo divisor is nonzero) and every generated element is an integer in
`[0, randmax)` cast to double. (`randmax = 0` is also accepted, and there
the C modulo divides by zero.) -/
theorem generate_elements_in_range (r : Nat → Int) (n : Nat) (randmax : Int)
    (hflag : Read_RandMax_flag randmax = 1) (hpos : 0 < randmax)
    (hr : ∀ i, 0 ≤ r i) :
    ∀ v ∈ Generate_vector_global r n randmax,
      ∃ k : Int, v = (k : ℚ) ∧ 0 ≤ k ∧ k < randmax := by
  intro v hv
  simp only [Generate_vector_global, List.mem_map, List.mem_range] at hv
  obtain ⟨i, _, hvi⟩ := hv
  exact ⟨Int.tmod (r i) randmax, hvi.symm,
    Int.tmod_nonneg randmax (hr i), Int.tmod_lt_of_pos (r i) hpos⟩

/-- C7 amended witness: with the stream constantly 7 and `randmax = 3`, every
generated element of an order-2 vector is an integer in `[0, 3)`. -/
theorem generate_elements_in_range_witness :
    Read_RandMax_flag 3 = 1 ∧ (0 : Int) < 3 ∧ (∀ i : Nat, (0 : Int) ≤ (fun _ => (7 : Int)) i)
    ∧ ∀ v ∈ Generate_vector_global (fun _ => (7 : Int)) 2 3,
        ∃ k : Int, v = (k : ℚ) ∧ 0 ≤ k ∧ k < 3 :=
  ⟨by decide, by decide, fun _ => by show (0 : Int) ≤ 7; decide,
   generate_elements_in_range (fun _ => (7 : Int)) 2 3 (by decide) (by decide)
     (fun _ => by show (0 : Int) ≤ 7; decide)⟩

/-- C8 counterexample: `n = 0` is accepted by the order validation (with
`P = 1`), yet the summary print reads global index 9, which is not within
`[0, 0)`. -/
theorem print_zero_counterexample :
    (Read_n_gate 0 1).aborted = false
    ∧ (9 : Int) ∈ PrintTopDown_accesses 0
    ∧ ¬ ((9 : Int) < 0) := by
  refine ⟨by decide, ?_, by decide⟩
  simp [PrintTopDown_accesses]

/-- C8 amended: the gathered-summary print reads exactly global indices
`0..9` and `n-10..n-1`; whenever `n ≥ 10` each such index lies within
`[0, n)`. (Orders `n < 10` accepted by the validation, such as `n = 0`,
make the print read out-of-bounds positions.) -/
theorem print_accesses_in_bounds (n : Int) (hn : 10 ≤ n) :
    PrintTopDown_accesses n
      = ((List.range 10).map (fun i => Int.ofNat i))
        ++ ((List.range 10).map (fun i => n - 10 + Int.ofNat i))
    ∧ ∀ idx ∈ PrintTopDown_accesses n, 0 ≤ idx ∧ idx < n := by
  constructor
  · have h10 : List.range 10 = List.range 9 ++ [9] := by decide
    rw [h10]
    simp [PrintTopDown_accesses, List.map_append]
    omega
  · intro idx hidx
    unfold PrintTopDown_accesses at hidx
    rcases List.mem_append.mp hidx with h | hlast
    · rcases List.mem_append.mp h with h2 | hB
      · rcases List.mem_append.mp h2 with hA | h9
        · obtain ⟨i, hi, rfl⟩ := List.mem_map.mp hA
          have hi9 : i < 9 := List.mem_range.mp hi
          simp only [Int.ofNat_eq_coe]
          omega
        · have h9e : idx = 9 := List.mem_singleton.mp h9
          omega
      · obtain ⟨i, hi, rfl⟩ := List.mem_map.mp hB
        have hi9 : i < 9 := List.mem_range.mp hi
        simp only [Int.ofNat_eq_coe]
        omega
    · have hle : idx = n - 1 := List.mem_singleton.mp hlast
      omega

/-- C8 amended witness: at `n = 20` every accessed index is within bounds. -/
theorem print_accesses_in_bounds_witness :
    (10 : Int) ≤ 20
    ∧ (PrintTopDown_accesses 20
        = ((List.range 10).map (fun i => Int.ofNat i))
          ++ ((List.range 10).map (fun i => 20 - 10 + Int.ofNat i))
      ∧ ∀ idx ∈ PrintTopDown_accesses 20, 0 ≤ idx ∧ idx < 20) :=
  ⟨by decide, print_accesses_in_bounds 20 (by decide)⟩

/-- C9 counterexample: the serial variant's pipeline is not the distributed
pipeline: it never reads a scalar, never scales, never computes a dot
product, and instead computes the elementwise vector sum. -/
theorem serial_pipeline_ne : serialPipeline ≠ mpiPipeline := by decide

/-- C9 amended: the serial variant shares the parameter-reading, allocation
and generation front with the distributed program, but it is a different
computation, not the `P = 1` degenerate case: it computes the elementwise
vector sum (absent from the distributed pipeline), has no scalar read,
no scaling and no dot product, prints generation-confirmation lines the
distributed program does not, and its order validation rejects `n = 0`,
which the distributed validation accepts. -/
theorem serial_vs_distributed :
    serialPipeline.take 4 = mpiPipeline.take 4
    ∧ Stage.readScalar ∉ serialPipeline
    ∧ Stage.dotProduct ∉ serialPipeline
    ∧ Stage.vectorSum ∈ serialPipeline
    ∧ Stage.vectorSum ∉ mpiPipeline
    ∧ Stage.generatedMsg 0 ∈ serialPipeline
    ∧ Stage.generatedMsg 0 ∉ mpiPipeline
    ∧ serial_Read_n_ok 0 = false
    ∧ (Read_n_gate 0 1).aborted = false := by decide

/-- C10: the scalar read applies no validation: the value read at rank 0 is
broadcast unchanged to every worker, the function makes no gate call, and
the run's input-dependent abort condition does not depend on the scalar. -/
theorem Read_Scalar_no_validation (s t n randmax : Int) (allocOk : Bool) (P : Nat) :
    (Read_Scalar_run s).1 = s
    ∧ (Read_Scalar_run s).2 = []
    ∧ mpiBcast s P = List.replicate P s
    ∧ mainAborts n randmax s allocOk P = mainAborts n randmax t allocOk P :=
  ⟨rfl, rfl, rfl, rfl⟩

end VectorAdd
